import Mathlib

/-!
Verification of the pipeline orchestration and run-history subsystem of the
Weather-Data-Pipeline repository.

The development shallowly embeds the relevant code:

* `src/src/pipeline/orchestrator.py` — `PipelineOrchestrator.generate_run_id`,
  `log_pipeline_start`, `log_pipeline_end`, the four `run_<stage>` methods and
  `run_pipeline`.  Stage bodies call external collaborators (HTTP API, pandas,
  database, chart rendering); each collaborator call is modelled by a
  `StageOutcome` input saying whether that stage's body succeeds (returning its
  metrics) or raises (with a message), exactly mirroring the `try/except`
  structure of the code.
* `src/src/pipeline/monitor.py` — `get_pipeline_history` and
  `clean_corrupted_files`.
* `src/src/pipeline/scheduler.py` — the cooperative polling loops
  (`start_interval_schedule` etc.), modelled as an event trace generator.

The run-history store (`logs/pipeline_runs/*.json` plus the
`logs/pipeline_runs/corrupted/` holding area) is modelled as `FileStore`:
association lists from file key to raw textual content.  Keys are the run ids;
the constant directory prefix and the constant `".json"` suffix of the real
paths are dropped, which preserves the lexicographic comparisons the code
performs because all run ids have the same length.  `json.dump`/`json.load`
are modelled by a concrete executable codec (`serializeRunStats` /
`parseRunRecord`): the exact textual format is irrelevant to the verified
properties, what matters is that the writer produces a unit the parser
accepts, while arbitrary corrupted strings are rejected.

Wall-clock instants are `Timestamp` values at second resolution (the
resolution `datetime.now().strftime` uses for run ids); durations are measured
through the monotone index `tsIndex`.
-/

/-- A calendar timestamp at second resolution, as produced by
`datetime.now()` in `generate_run_id` and `log_pipeline_start`. -/
structure Timestamp where
  year : Nat
  month : Nat
  day : Nat
  hour : Nat
  minute : Nat
  second : Nat
deriving DecidableEq

/-- Dense numeric index of a timestamp (base-100 digits of its six fields).
On valid calendar timestamps this is an order isomorphism onto its image, so
it serves as the model's monotone clock. -/
def tsIndex (t : Timestamp) : Nat :=
  ((((t.year * 100 + t.month) * 100 + t.day) * 100 + t.hour) * 100 + t.minute) * 100 + t.second

/-- Chronological order on timestamps. -/
def tsLt (t1 t2 : Timestamp) : Prop := tsIndex t1 < tsIndex t2

instance (t1 t2 : Timestamp) : Decidable (tsLt t1 t2) := by unfold tsLt; infer_instance

/-- Calendar validity of the fields, as guaranteed for every value
`datetime.now()` can return (four-digit year). -/
def validTs (t : Timestamp) : Prop :=
  1000 ≤ t.year ∧ t.year ≤ 9999 ∧ 1 ≤ t.month ∧ t.month ≤ 12 ∧ 1 ≤ t.day ∧ t.day ≤ 31 ∧
    t.hour ≤ 23 ∧ t.minute ≤ 59 ∧ t.second ≤ 59

instance (t : Timestamp) : Decidable (validTs t) := by unfold validTs; infer_instance

/-- Zero-padded fixed-width decimal rendering of a number, modelling the
`strftime` field directives `%Y`, `%m`, `%d`, `%H`, `%M`, `%S`. -/
def padDigits : Nat → Nat → List Char
  | 0, _ => []
  | k + 1, n => Nat.digitChar (n / 10 ^ k) :: padDigits k (n % 10 ^ k)

/-- The characters of `"run_" + now.strftime("%Y%m%d_%H%M%S")`. -/
def runIdChars (t : Timestamp) : List Char :=
  ['r', 'u', 'n', '_'] ++
    (padDigits 4 t.year ++ (padDigits 2 t.month ++ (padDigits 2 t.day ++
      (['_'] ++ (padDigits 2 t.hour ++ (padDigits 2 t.minute ++ padDigits 2 t.second))))))

/-- Models `PipelineOrchestrator.generate_run_id`: the run id generated from
the creation timestamp `t`. -/
def generate_run_id (t : Timestamp) : String := String.mk (runIdChars t)

/-- One entry of the `run_stats['stages']` mapping, as written by the
`run_<stage>` methods: a `status` string, an `error` message in the `failed`
case, the stage duration, and the stage-specific counters. -/
structure StageResult where
  status : String
  error : Option String
  duration_seconds : Nat
  metrics : List (String × String)
deriving DecidableEq

/-- The `run_stats` dictionary of `PipelineOrchestrator`: the RunRecord. -/
structure RunStats where
  run_id : String
  start_time : Timestamp
  end_time : Option Timestamp
  duration_seconds : Option Nat
  status : String
  stages : List (String × StageResult)
  error : Option String
deriving DecidableEq

/-- Outcome of one stage's external collaborator calls: either the stage body
runs to completion yielding its metrics, or some call in it raises with a
message (the `except Exception as e` branch). -/
inductive StageOutcome where
  | ok (metrics : List (String × String)) (dur : Nat)
  | err (msg : String) (dur : Nat)
deriving DecidableEq

/-- The collaborator outcomes for the four fixed stages of one invocation. -/
structure StageEnv where
  extraction : StageOutcome
  transformation : StageOutcome
  loading : StageOutcome
  analytics : StageOutcome
deriving DecidableEq

/-- The fixed stage sequence of `run_pipeline`. -/
def pipelineStages : List String := ["extraction", "transformation", "loading", "analytics"]

/-- The stage sequence paired with its collaborator outcomes. -/
def stageOutcomes (env : StageEnv) : List (String × StageOutcome) :=
  [("extraction", env.extraction), ("transformation", env.transformation),
   ("loading", env.loading), ("analytics", env.analytics)]

/-- The stage loop of `run_pipeline`: each `run_<stage>` method appends a
`success` entry to `run_stats['stages']` and continues, or appends a `failed`
entry and re-raises, aborting the remaining stages (the raised message is
returned alongside the updated stats). -/
def runStages : RunStats → List (String × StageOutcome) → RunStats × Option String
  | stats, [] => (stats, none)
  | stats, (name, StageOutcome.ok m d) :: rest =>
      runStages { stats with stages := stats.stages ++ [(name, ⟨"success", none, d, m⟩)] } rest
  | stats, (name, StageOutcome.err e d) :: _ =>
      ({ stats with stages := stats.stages ++ [(name, ⟨"failed", some e, d, []⟩)] }, some e)

/- ## The run-history store and its primitive file operations -/

/-- The state of `logs/pipeline_runs/`: the active set of stored units plus
the `corrupted/` holding area, each an association of file key to raw
content. -/
structure FileStore where
  active : List (String × String)
  quarantined : List (String × String)
deriving DecidableEq

/-- Remove every binding of key `k`. -/
def eraseKey (l : List (String × String)) (k : String) : List (String × String) :=
  l.filter (fun p => p.1 != k)

/-- Bind key `k` to content `v` in the active set (replacing any previous
binding). -/
def setKey (st : FileStore) (k v : String) : FileStore :=
  ⟨eraseKey st.active k ++ [(k, v)], st.quarantined⟩

/-- Primitive file-system steps a writer performs, at the granularity a
concurrent reader can observe them. -/
inductive FsOp where
  | openTruncate (key : String)
  | writeChunk (key : String) (chunk : String)
  | closeFile (key : String)
deriving DecidableEq

/-- Effect of one primitive step on the store: `open(..., 'w')` creates or
truncates the unit in place, a write appends to its current content, closing
changes nothing further. -/
def applyOp (st : FileStore) : FsOp → FileStore
  | FsOp.openTruncate k => setKey st k ""
  | FsOp.writeChunk k c => setKey st k (((st.active.lookup k).getD "") ++ c)
  | FsOp.closeFile _ => st

/-- The step sequence of the persistence block of `log_pipeline_end`:
`open(stats_file, 'w')` on the final path followed by `json.dump` into it —
an in-place write of the final key, with no temporary location. -/
def appendOps (k content : String) : List FsOp :=
  [FsOp.openTruncate k, FsOp.writeChunk k content, FsOp.closeFile k]

/-- The complete effect of the persistence block on the store. -/
def storeWrite (st : FileStore) (k content : String) : FileStore :=
  (appendOps k content).foldl applyOp st

/- ## The stored-unit codec, modelling `json.dump` / `json.load` -/

/-- Split a character list at every occurrence of the separator `sep` (the
splitting step `json.load`'s grammar is modelled with). -/
def splitOnChar (sep : Char) : List Char → List (List Char)
  | [] => [[]]
  | c :: rest =>
      match splitOnChar sep rest with
      | h :: t => if c = sep then [] :: h :: t else (c :: h) :: t
      | [] => if c = sep then [[], []] else [[c]]

/-- Decimal digit value of a character, if any. -/
def charToDigit (c : Char) : Option Nat :=
  if c = '0' then some 0 else if c = '1' then some 1 else if c = '2' then some 2
  else if c = '3' then some 3 else if c = '4' then some 4 else if c = '5' then some 5
  else if c = '6' then some 6 else if c = '7' then some 7 else if c = '8' then some 8
  else if c = '9' then some 9 else none

/-- Accumulating decimal reader. -/
def digitsToNatAux : Nat → List Char → Option Nat
  | acc, [] => some acc
  | acc, c :: rest =>
      match charToDigit c with
      | some d => digitsToNatAux (acc * 10 + d) rest
      | none => none

/-- Read a nonempty all-digit character list as a number. -/
def parseNatChars : List Char → Option Nat
  | [] => none
  | l => digitsToNatAux 0 l

/-- Encode an arbitrary string as the comma-separated decimal code points of
its characters; the output alphabet (digits and commas) never collides with
the field and record separators used below. -/
def encodeStringC (s : String) : List Char :=
  List.intercalate [','] (s.data.map (fun c => Nat.toDigits 10 c.toNat))

/-- Partial inverse of `encodeStringC`. -/
def decodeStringC : List Char → Option String
  | [] => some ""
  | l => ((splitOnChar ',' l).mapM parseNatChars).map (fun ns => String.mk (ns.map Char.ofNat))

/-- Encode an optional field. -/
def encodeOptWith (f : α → List Char) : Option α → List Char
  | none => ['-']
  | some a => '+' :: f a

/-- Partial inverse of `encodeOptWith`. -/
def decodeOptWith (f : List Char → Option α) : List Char → Option (Option α)
  | ['-'] => some none
  | '+' :: rest => (f rest).map some
  | _ => none

/-- Encode a timestamp. -/
def tsEncode (t : Timestamp) : List Char :=
  List.intercalate [':']
    ([t.year, t.month, t.day, t.hour, t.minute, t.second].map (Nat.toDigits 10))

/-- Partial inverse of `tsEncode`. -/
def tsDecode (l : List Char) : Option Timestamp :=
  match (splitOnChar ':' l).mapM parseNatChars with
  | some [y, mo, d, h, mi, sec] => some ⟨y, mo, d, h, mi, sec⟩
  | _ => none

/-- Encode a stage's metrics mapping. -/
def encodeMetrics (m : List (String × String)) : List Char :=
  List.intercalate ['&'] (m.map (fun p => encodeStringC p.1 ++ '=' :: encodeStringC p.2))

/-- Decode one metrics binding. -/
def decodeMetricPair (l : List Char) : Option (String × String) :=
  match splitOnChar '=' l with
  | [a, b] =>
      match decodeStringC a, decodeStringC b with
      | some x, some y => some (x, y)
      | _, _ => none
  | _ => none

/-- Partial inverse of `encodeMetrics`. -/
def decodeMetrics : List Char → Option (List (String × String))
  | [] => some []
  | l => (splitOnChar '&' l).mapM decodeMetricPair

/-- Encode one entry of the stages mapping. -/
def encodeStage (p : String × StageResult) : List Char :=
  encodeStringC p.1 ++ '^' :: encodeStringC p.2.status ++ '^' ::
    encodeOptWith encodeStringC p.2.error ++ '^' :: Nat.toDigits 10 p.2.duration_seconds ++
    '^' :: encodeMetrics p.2.metrics

/-- Partial inverse of `encodeStage`. -/
def decodeStage (l : List Char) : Option (String × StageResult) :=
  match splitOnChar '^' l with
  | [n, st, er, du, me] =>
      match decodeStringC n, decodeStringC st, decodeOptWith decodeStringC er,
          parseNatChars du, decodeMetrics me with
      | some n', some st', some er', some du', some me' => some (n', ⟨st', er', du', me'⟩)
      | _, _, _, _, _ => none
  | _ => none

/-- Serialize a run record to the stored unit, modelling `json.dump` in
`log_pipeline_end`. -/
def serializeRunStats (r : RunStats) : String :=
  String.mk (List.intercalate [';'] [encodeStringC r.run_id, tsEncode r.start_time,
    encodeOptWith tsEncode r.end_time, encodeOptWith (Nat.toDigits 10) r.duration_seconds,
    encodeStringC r.status, List.intercalate ['|'] (r.stages.map encodeStage),
    encodeOptWith encodeStringC r.error])

/-- Parse a stored unit back into a run record, modelling `json.load`:
returns `none` (the `json.JSONDecodeError` branch of the readers) on any
string the grammar rejects. -/
def parseRunRecord (s : String) : Option RunStats :=
  match splitOnChar ';' s.data with
  | [ri, st, en, du, sta, stg, er] =>
      match decodeStringC ri, tsDecode st, decodeOptWith tsDecode en,
          decodeOptWith parseNatChars du, decodeStringC sta,
          (match stg with
           | [] => some []
           | l => (splitOnChar '|' l).mapM decodeStage),
          decodeOptWith decodeStringC er with
      | some ri', some st', some en', some du', some sta', some stg', some er' =>
          some ⟨ri', st', en', du', sta', stg', er'⟩
      | _, _, _, _, _, _, _ => none
  | _ => none

/- ## The orchestrator -/

/-- Models `log_pipeline_start`: the fresh `run_stats` dictionary. -/
def log_pipeline_start (rid : String) (t : Timestamp) : RunStats :=
  { run_id := rid, start_time := t, end_time := none, duration_seconds := none,
    status := "running", stages := [], error := none }

/-- Models `log_pipeline_end`: finalizes `end_time`, `status`,
`duration_seconds` and (when given) `error`, then writes the serialized
record to `logs/pipeline_runs/run_id.json` inside a `try/except` — `writeOk`
says whether that store write succeeds; on failure the error is only logged
and the store is left unchanged. -/
def log_pipeline_end (stats : RunStats) (tEnd : Timestamp) (status : String)
    (error : Option String) (st : FileStore) (writeOk : Bool) : RunStats × FileStore :=
  let stats' : RunStats :=
    { stats with
      end_time := some tEnd
      status := status
      duration_seconds := some (tsIndex tEnd - tsIndex stats.start_time)
      error := match error with | some e => some e | none => stats.error }
  (stats', if writeOk then storeWrite st stats'.run_id (serializeRunStats stats') else st)

/-- The dictionary `run_pipeline` returns. -/
structure PipelineResult where
  status : String
  run_id : String
  error : Option String
  stats : RunStats
deriving DecidableEq

/-- Models `PipelineOrchestrator.run_pipeline`: generate the run id from the
creation instant `t`, run the fixed stage sequence fail-fast against the
collaborator outcomes `env`, and on both the success path and the
exception path finalize and persist the record via `log_pipeline_end`
(ending at instant `tEnd`), returning the result dictionary together with
the resulting store state. -/
def run_pipeline (env : StageEnv) (t tEnd : Timestamp) (st : FileStore) (writeOk : Bool) :
    PipelineResult × FileStore :=
  let rid := generate_run_id t
  let stats0 := log_pipeline_start rid t
  match runStages stats0 (stageOutcomes env) with
  | (stats1, none) =>
      let (stats2, st') := log_pipeline_end stats1 tEnd "success" none st writeOk
      (⟨"success", rid, none, stats2⟩, st')
  | (stats1, some e) =>
      let (stats2, st') := log_pipeline_end stats1 tEnd "failed" (some e) st writeOk
      (⟨"failed", rid, some e, stats2⟩, st')

/- ## C1: top-level status is success iff all four stages succeeded -/

/-- C1. For every run produced by `run_pipeline`, the finalized record has
top-level status `"success"` iff every entry of its stages mapping has status
`"success"` and the number of stage entries equals the fixed pipeline length
`4`. -/
theorem run_pipeline_success_iff_all_stages (env : StageEnv) (t tEnd : Timestamp)
    (st : FileStore) (writeOk : Bool) :
    ((run_pipeline env t tEnd st writeOk).1.stats.status = "success" ↔
      ((∀ p ∈ (run_pipeline env t tEnd st writeOk).1.stats.stages, p.2.status = "success") ∧
        (run_pipeline env t tEnd st writeOk).1.stats.stages.length = pipelineStages.length)) := by
  obtain ⟨e, tr, ld, an⟩ := env
  cases e <;> cases tr <;> cases ld <;> cases an <;>
    simp [run_pipeline, stageOutcomes, runStages, log_pipeline_start, log_pipeline_end,
      pipelineStages]

/- ## C2: fail-fast execution -/

/-- C2. Execution is fail-fast: if the stage entry at (0-based) position `i`
of the finalized stages mapping has status `"failed"`, then it is the last
entry — the first failed stage's 1-based position equals the final number of
entries and no stage entry appears after it. -/
theorem run_pipeline_fail_fast (env : StageEnv) (t tEnd : Timestamp) (st : FileStore)
    (writeOk : Bool) (i : Nat)
    (h : i < (run_pipeline env t tEnd st writeOk).1.stats.stages.length)
    (hf : ((run_pipeline env t tEnd st writeOk).1.stats.stages.get ⟨i, h⟩).2.status = "failed") :
    (run_pipeline env t tEnd st writeOk).1.stats.stages.length = i + 1 := by
  obtain ⟨e, tr, ld, an⟩ := env
  cases e <;> cases tr <;> cases ld <;> cases an <;>
    simp only [run_pipeline, stageOutcomes, runStages, log_pipeline_start, log_pipeline_end,
      List.nil_append, List.cons_append, List.length_cons, List.length_nil] at h hf ⊢ <;>
    interval_cases i <;> simp_all

/-- Witness for C2 at a concrete input: a run whose transformation stage
fails has exactly two stage entries, the second being the failed one. -/
theorem run_pipeline_fail_fast_witness :
    (((run_pipeline ⟨StageOutcome.ok [] 1, StageOutcome.err "bad schema" 2, StageOutcome.ok [] 1,
        StageOutcome.ok [] 1⟩ ⟨2024, 1, 1, 0, 0, 0⟩ ⟨2024, 1, 1, 0, 1, 0⟩ ⟨[], []⟩
        true).1.stats.stages.map (fun p => p.2.status))[1]? = some "failed") ∧
    (run_pipeline ⟨StageOutcome.ok [] 1, StageOutcome.err "bad schema" 2, StageOutcome.ok [] 1,
        StageOutcome.ok [] 1⟩ ⟨2024, 1, 1, 0, 0, 0⟩ ⟨2024, 1, 1, 0, 1, 0⟩ ⟨[], []⟩
        true).1.stats.stages.length = 2 :=
  ⟨by decide,
    run_pipeline_fail_fast ⟨StageOutcome.ok [] 1, StageOutcome.err "bad schema" 2,
      StageOutcome.ok [] 1, StageOutcome.ok [] 1⟩ ⟨2024, 1, 1, 0, 0, 0⟩ ⟨2024, 1, 1, 0, 1, 0⟩
      ⟨[], []⟩ true 1 (by decide) (by decide)⟩

/- ## Store-write lemmas shared by C3 and C4 -/

/-- Looking up `k` after rebinding it finds the new content. -/
theorem lookup_eraseKey_append (l : List (String × String)) (k v : String) :
    (eraseKey l k ++ [(k, v)]).lookup k = some v := by
  induction l with
  | nil => simp [eraseKey, List.lookup]
  | cons p rest ih =>
      by_cases h : p.1 = k
      · simpa [eraseKey, h] using ih
      · have hk : (k == p.1) = false := by simp [Ne.symm h]
        simpa [eraseKey, List.lookup, h, hk] using ih

/-- Looking up `k` in the active set after `setKey` finds the new content. -/
theorem lookup_setKey_self (st : FileStore) (k v : String) :
    (setKey st k v).active.lookup k = some v :=
  lookup_eraseKey_append st.active k v

/-- Erasing a key is idempotent. -/
theorem eraseKey_eraseKey (l : List (String × String)) (k : String) :
    eraseKey (eraseKey l k) k = eraseKey l k := by
  simp only [eraseKey, List.filter_filter, Bool.and_self]

/-- Rebinding a key twice keeps only the second binding. -/
theorem setKey_setKey (st : FileStore) (k a b : String) :
    setKey (setKey st k a) k b = setKey st k b := by
  simp [setKey, eraseKey, List.filter_append, List.filter_filter]

/-- The persistence block's three steps amount to binding the run id to the
full serialized content. -/
theorem storeWrite_eq_setKey (st : FileStore) (k v : String) :
    storeWrite st k v = setKey st k v := by
  simp only [storeWrite, appendOps, List.foldl, applyOp, lookup_setKey_self, Option.getD_some,
    String.empty_append, setKey_setKey]

/- ## C3: persistence behaviour on the exit paths -/

/-- Helper: on every exit path `run_pipeline` performs exactly the single
persistence step of `log_pipeline_end` — the store is the one-key write of
the finalized record when the write succeeds, and unchanged when it fails. -/
theorem run_pipeline_store_eq (env : StageEnv) (t tEnd : Timestamp) (st : FileStore)
    (writeOk : Bool) :
    (run_pipeline env t tEnd st writeOk).2 =
      if writeOk then
        storeWrite st (generate_run_id t)
          (serializeRunStats (run_pipeline env t tEnd st writeOk).1.stats)
      else st := by
  obtain ⟨e, tr, ld, an⟩ := env
  cases e <;> cases tr <;> cases ld <;> cases an <;> rfl

/-- Helper: the returned dictionary carries the generated run id. -/
theorem run_pipeline_run_id (env : StageEnv) (t tEnd : Timestamp) (st : FileStore)
    (writeOk : Bool) :
    (run_pipeline env t tEnd st writeOk).1.run_id = generate_run_id t := by
  obtain ⟨e, tr, ld, an⟩ := env
  cases e <;> cases tr <;> cases ld <;> cases an <;> rfl

/-- C3 counterexample: a run on which the history-store write fails returns
normally (here even with top-level status `"success"`), yet by the time
`run_pipeline` has returned no record is retrievable under its `run_id` —
the finalized record was not durably persisted. -/
theorem run_pipeline_persist_skipped_on_write_error :
    (run_pipeline ⟨StageOutcome.ok [] 1, StageOutcome.ok [] 1, StageOutcome.ok [] 1,
        StageOutcome.ok [] 1⟩ ⟨2024, 1, 1, 0, 0, 0⟩ ⟨2024, 1, 1, 0, 1, 0⟩ ⟨[], []⟩
        false).1.status = "success" ∧
    (run_pipeline ⟨StageOutcome.ok [] 1, StageOutcome.ok [] 1, StageOutcome.ok [] 1,
        StageOutcome.ok [] 1⟩ ⟨2024, 1, 1, 0, 0, 0⟩ ⟨2024, 1, 1, 0, 1, 0⟩ ⟨[], []⟩
        false).2.active.lookup
      (run_pipeline ⟨StageOutcome.ok [] 1, StageOutcome.ok [] 1, StageOutcome.ok [] 1,
          StageOutcome.ok [] 1⟩ ⟨2024, 1, 1, 0, 0, 0⟩ ⟨2024, 1, 1, 0, 1, 0⟩ ⟨[], []⟩
          false).1.run_id = none :=
  ⟨rfl, rfl⟩

/-- C3 as amended.  Whether the run succeeds or a stage fails, by the time
`run_pipeline` returns the persistence step has been attempted exactly once:
when the history-store write succeeds the finalized record is durably bound
to the key `run_id` (and retrievable under it); when the write fails the
error is only logged and the store is left unchanged, so the record is lost
for history purposes. -/
theorem run_pipeline_single_write_on_every_path (env : StageEnv) (t tEnd : Timestamp)
    (st : FileStore) (writeOk : Bool) :
    ((run_pipeline env t tEnd st writeOk).2 =
        if writeOk then
          storeWrite st (generate_run_id t)
            (serializeRunStats (run_pipeline env t tEnd st writeOk).1.stats)
        else st) ∧
    (run_pipeline env t tEnd st writeOk).1.run_id = generate_run_id t ∧
    ∀ v, (storeWrite st (generate_run_id t) v).active.lookup (generate_run_id t) = some v :=
  ⟨run_pipeline_store_eq env t tEnd st writeOk, run_pipeline_run_id env t tEnd st writeOk,
    fun v => by rw [storeWrite_eq_setKey]; exact lookup_setKey_self st (generate_run_id t) v⟩

/- ## C4: atomicity of the store append -/

/-- C4 counterexample: the persistence block of `log_pipeline_end` opens the
final path directly with mode `'w'` and dumps into it.  One step into its
own step sequence — after the truncating open, before the content write — a
reader of the store observes the unit under the final key with content `""`:
a half-written record, different from the record being appended and rejected
by the parser.  No temporary location is ever involved. -/
theorem append_half_written_observable :
    (List.scanl applyOp (⟨[], []⟩ : FileStore) (appendOps "run_20240101_000000" "x;y"))[1]? =
      some ⟨[("run_20240101_000000", "")], []⟩ ∧
    parseRunRecord "" = none ∧
    (("" : String) ≠ "x;y") := by
  refine ⟨rfl, by decide, by decide⟩

/-- C4 as amended.  The store's append is an in-place write of the final
key, not a write-to-temporary-then-finalize: its observable states are
exactly the initial store, the store with the key truncated to the empty
(half-written) unit, and the store with the key bound to the complete
record — so a concurrently-running reader can observe a half-written
record, namely the truncated unit. -/
theorem append_in_place_write_states (st : FileStore) (k c : String) :
    List.scanl applyOp st (appendOps k c) =
      [st, setKey st k "", setKey st k c, setKey st k c] := by
  simp [appendOps, List.scanl, applyOp, lookup_setKey_self, setKey_setKey, String.empty_append]

/- ## The monitor: reading history and quarantining corrupt units -/

/-- Python compares strings lexicographically by code point; this models the
`<` that `run_files.sort(reverse=True)` in `get_pipeline_history` is built
on. -/
def charListLt : List Char → List Char → Bool
  | [], [] => false
  | [], _ :: _ => true
  | _ :: _, [] => false
  | a :: as, b :: bs => if a < b then true else if b < a then false else charListLt as bs

/-- String comparison by code points (Python `str.__lt__`). -/
def strLt (a b : String) : Bool := charListLt a.data b.data

/-- `run_files.sort(reverse=True)`: sort the keys in descending order. -/
def sortKeysDesc (l : List String) : List String :=
  l.insertionSort (fun a b => strLt a b = false)

/-- `run_files[:limit]` after the descending sort: the stored units the
reader will attempt to load. -/
def selectedKeys (st : FileStore) (limit : Nat) : List String :=
  (sortKeysDesc (st.active.map Prod.fst)).take limit

/-- Open and parse the unit under key `k` (`open` + `json.load` inside the
reader's `try`); any failure — missing unit or rejected content — lands in
the `except` branches and yields `none`. -/
def parseAt (st : FileStore) (k : String) : Option RunStats :=
  match st.active.lookup k with
  | none => none
  | some c => parseRunRecord c

/-- The reader's `for run_file in run_files[:limit]` loop: parsed units are
appended to `history`, failing ones to `corrupted_files`. -/
def historyLoop (st : FileStore) : List String → List RunStats × List String
  | [] => ([], [])
  | k :: rest =>
      match parseAt st k with
      | some r => (r :: (historyLoop st rest).1, (historyLoop st rest).2)
      | none => ((historyLoop st rest).1, k :: (historyLoop st rest).2)

/-- Models `get_pipeline_history` of `src/src/pipeline/monitor.py`: returns
the pair `(history, corrupted_files)`. -/
def get_pipeline_history (st : FileStore) (limit : Nat) : List RunStats × List String :=
  historyLoop st (selectedKeys st limit)

/-- One `os.rename(file_path, backup_path)` of `clean_corrupted_files`:
moves the unit under `k` from the active set into the `corrupted/` holding
area; if the unit is gone the raised error is caught and printed, leaving
the store unchanged. -/
def quarantineOne (st : FileStore) (k : String) : FileStore :=
  match st.active.lookup k with
  | some c => ⟨eraseKey st.active k, eraseKey st.quarantined k ++ [(k, c)]⟩
  | none => st

/-- Models `clean_corrupted_files` of `src/src/pipeline/monitor.py` (and the
identical move loop of `clean_corrupted_logs.py`). -/
def clean_corrupted_files (st : FileStore) (keys : List String) : FileStore :=
  keys.foldl quarantineOne st

/- ## C5: readers never crash; corrupt units are reported, not returned -/

/-- The loop returns exactly the units that parse, in selection order. -/
theorem historyLoop_fst (st : FileStore) (l : List String) :
    (historyLoop st l).1 = l.filterMap (parseAt st) := by
  induction l with
  | nil => rfl
  | cons k rest ih => cases h : parseAt st k <;> simp [historyLoop, h, ih]

/-- The loop reports exactly the units that fail to parse, in selection
order. -/
theorem historyLoop_snd (st : FileStore) (l : List String) :
    (historyLoop st l).2 = l.filter (fun k => (parseAt st k).isNone) := by
  induction l with
  | nil => rfl
  | cons k rest ih => cases h : parseAt st k <;> simp [historyLoop, h, ih]

/-- A concrete sample record used by the scenario stores. -/
def sampleRun (id : String) : RunStats :=
  ⟨id, ⟨2024, 1, 1, 0, 0, 0⟩, some ⟨2024, 1, 1, 0, 0, 5⟩, some 5, "success", [], none⟩

/-- Scenario store for C5: five syntactically valid stored units and one
invalid one. -/
def scenarioStoreC5 : FileStore :=
  ⟨[("run_1", serializeRunStats (sampleRun "a")), ("run_2", serializeRunStats (sampleRun "b")),
    ("run_3", serializeRunStats (sampleRun "c")), ("run_4", "garbage"),
    ("run_5", serializeRunStats (sampleRun "d")), ("run_6", serializeRunStats (sampleRun "e"))],
   []⟩

/-- C5.  The history read is total by construction and partitions the
selected stored units: every unit that parses is returned in the record
list, every unit that fails to parse is excluded from it and reported in the
unreadable-keys list instead; in particular, on a store with one invalid
unit among 5 valid ones, reading with limit 10 yields 5 records and exactly
the one unreadable key. -/
theorem get_pipeline_history_partitions_units (st : FileStore) (limit : Nat) :
    (get_pipeline_history st limit).1 = (selectedKeys st limit).filterMap (parseAt st) ∧
    (get_pipeline_history st limit).2 =
      (selectedKeys st limit).filter (fun k => (parseAt st k).isNone) ∧
    (get_pipeline_history scenarioStoreC5 10).1.length = 5 ∧
    (get_pipeline_history scenarioStoreC5 10).2 = ["run_4"] :=
  ⟨historyLoop_fst st _, historyLoop_snd st _, by decide, by decide⟩

/- ## C7: quarantine is idempotent -/

/-- Erasing a key makes it unfindable. -/
theorem lookup_eraseKey_self (l : List (String × String)) (k : String) :
    (eraseKey l k).lookup k = none := by
  induction l with
  | nil => rfl
  | cons p rest ih =>
      by_cases h : p.1 = k
      · simpa [eraseKey, h] using ih
      · have hk : (k == p.1) = false := by simp [Ne.symm h]
        simpa [eraseKey, List.lookup, h, hk] using ih

/-- Erasing any key preserves absence of a key. -/
theorem lookup_eraseKey_of_none (l : List (String × String)) (k k' : String)
    (h : l.lookup k' = none) : (eraseKey l k).lookup k' = none := by
  induction l with
  | nil => rfl
  | cons p rest ih =>
      by_cases hp : k' = p.1
      · simp [List.lookup, hp] at h
      · have hk : (k' == p.1) = false := by simp [hp]
        simp only [List.lookup, hk] at h
        by_cases hq : p.1 = k
        · simpa [eraseKey, hq] using ih h
        · simpa [eraseKey, List.lookup, hq, hk] using ih h

/-- After moving `k` out, `k` is no longer in the active set. -/
theorem quarantineOne_lookup_self (st : FileStore) (k : String) :
    (quarantineOne st k).active.lookup k = none := by
  unfold quarantineOne
  cases h : st.active.lookup k with
  | none => simpa using h
  | some c => simpa using lookup_eraseKey_self st.active k

/-- Moving any key out never adds a key to the active set. -/
theorem quarantineOne_lookup_of_none (st : FileStore) (k k' : String)
    (h : st.active.lookup k' = none) : (quarantineOne st k).active.lookup k' = none := by
  unfold quarantineOne
  cases hk : st.active.lookup k with
  | none => simpa using h
  | some c => simpa using lookup_eraseKey_of_none st.active k k' h

/-- A key that is already gone from the active set makes the move a no-op
(the `os.rename` failure is caught and the store is untouched). -/
theorem quarantineOne_of_none (st : FileStore) (k : String)
    (h : st.active.lookup k = none) : quarantineOne st k = st := by
  unfold quarantineOne
  rw [h]

/-- The full quarantine pass never adds a key to the active set. -/
theorem clean_lookup_of_none (keys : List String) (st : FileStore) (k' : String)
    (h : st.active.lookup k' = none) :
    (clean_corrupted_files st keys).active.lookup k' = none := by
  induction keys generalizing st with
  | nil => simpa [clean_corrupted_files] using h
  | cons k rest ih =>
      simpa [clean_corrupted_files] using
        ih (quarantineOne st k) (quarantineOne_lookup_of_none st k k' h)

/-- After a quarantine pass, none of the requested keys remain active. -/
theorem clean_lookup_mem (keys : List String) (st : FileStore) (k : String) (hk : k ∈ keys) :
    (clean_corrupted_files st keys).active.lookup k = none := by
  induction keys generalizing st with
  | nil => cases hk
  | cons a rest ih =>
      rcases List.mem_cons.mp hk with h | h
      · subst h
        simpa [clean_corrupted_files] using
          clean_lookup_of_none rest (quarantineOne st k) k (quarantineOne_lookup_self st k)
      · simpa [clean_corrupted_files] using ih (quarantineOne st a) h

/-- A quarantine pass over keys that are all absent is the identity. -/
theorem clean_of_all_none (keys : List String) (st : FileStore)
    (h : ∀ k ∈ keys, st.active.lookup k = none) : clean_corrupted_files st keys = st := by
  induction keys with
  | nil => rfl
  | cons a rest ih =>
      have ha : quarantineOne st a = st := quarantineOne_of_none st a (h a (by simp))
      calc clean_corrupted_files st (a :: rest)
          = clean_corrupted_files (quarantineOne st a) rest := rfl
        _ = clean_corrupted_files st rest := by rw [ha]
        _ = st := ih (fun k hk => h k (List.mem_cons_of_mem a hk))

/-- C7.  Quarantine is idempotent: moving a set of unreadable keys to the
holding area twice produces the same final store state (active set and
holding area) as moving them once — rerunning it on keys that are already
quarantined is a no-op, not an error. -/
theorem clean_corrupted_files_idempotent (st : FileStore) (keys : List String) :
    clean_corrupted_files (clean_corrupted_files st keys) keys =
      clean_corrupted_files st keys :=
  clean_of_all_none keys (clean_corrupted_files st keys)
    (fun k hk => clean_lookup_mem keys st k hk)

/- ## C10: corrupt units consume result slots -/

/-- Parsed and failing units together account for every selected unit. -/
theorem length_filterMap_add_filter (l : List String) (f : String → Option RunStats) :
    (l.filterMap f).length + (l.filter (fun k => (f k).isNone)).length = l.length := by
  induction l with
  | nil => rfl
  | cons k rest ih => cases h : f k <;> simp [h, ih] <;> omega

/-- A selected unit that fails to parse strictly shrinks the record list. -/
theorem length_filterMap_lt_of_none (l : List String) (f : String → Option RunStats)
    (k : String) (hk : k ∈ l) (hf : f k = none) : (l.filterMap f).length < l.length := by
  induction l with
  | nil => cases hk
  | cons a rest ih =>
      rcases List.mem_cons.mp hk with h | h
      · subst h
        simp only [List.filterMap_cons, hf]
        exact Nat.lt_succ_of_le (List.length_filterMap_le f rest)
      · cases ha : f a with
        | none =>
            simp only [List.filterMap_cons, ha, List.length_cons]
            exact Nat.lt_succ_of_lt (ih h)
        | some b =>
            simp only [List.filterMap_cons, ha, List.length_cons]
            exact Nat.succ_lt_succ (ih h)

/-- C10.  The reader selects the lexicographically most recent `limit`
stored units before parsing, so corrupt units consume result slots: the
number of returned records plus the number of reported unreadable keys never
exceeds `limit`, and as soon as a corrupt unit lies among the selected units
the reader returns strictly fewer than `limit` records, even if more valid
records exist in the store. -/
theorem history_corrupt_units_consume_slots (st : FileStore) (limit : Nat) (k : String)
    (hk : k ∈ selectedKeys st limit) (hbad : parseAt st k = none) :
    (get_pipeline_history st limit).1.length + (get_pipeline_history st limit).2.length ≤
      limit ∧
    (get_pipeline_history st limit).1.length < limit := by
  have hsel : (selectedKeys st limit).length ≤ limit := by
    simp [selectedKeys]
  constructor
  · rw [get_pipeline_history, historyLoop_fst, historyLoop_snd,
      length_filterMap_add_filter]
    exact hsel
  · rw [get_pipeline_history, historyLoop_fst]
    exact Nat.lt_of_lt_of_le
      (length_filterMap_lt_of_none (selectedKeys st limit) (parseAt st) k hk hbad) hsel

/-- Scenario store for C10: four valid units and one corrupt unit that is
lexicographically the most recent. -/
def scenarioStoreC10 : FileStore :=
  ⟨[("run_1", serializeRunStats (sampleRun "a")), ("run_2", serializeRunStats (sampleRun "b")),
    ("run_3", serializeRunStats (sampleRun "c")), ("run_4", serializeRunStats (sampleRun "d")),
    ("run_5", "garbage")], []⟩

/-- Witness for C10 at a concrete input: with limit 2 and the corrupt unit
among the two most recent, only 1 record is returned although 4 valid
records exist in the store. -/
theorem history_corrupt_units_consume_slots_witness :
    ("run_5" ∈ selectedKeys scenarioStoreC10 2 ∧ parseAt scenarioStoreC10 "run_5" = none) ∧
    ((get_pipeline_history scenarioStoreC10 2).1.length +
        (get_pipeline_history scenarioStoreC10 2).2.length ≤ 2 ∧
      (get_pipeline_history scenarioStoreC10 2).1.length < 2) :=
  ⟨⟨by decide, by decide⟩,
    history_corrupt_units_consume_slots scenarioStoreC10 2 "run_5" (by decide) (by decide)⟩

/- ## Laws of the code-point lexicographic order -/

/-- Code-point order is irreflexive. -/
theorem charListLt_irrefl : ∀ l : List Char, charListLt l l = false
  | [] => rfl
  | c :: rest => by
      simp only [charListLt, if_neg (lt_irrefl c)]
      exact charListLt_irrefl rest

/-- Code-point order is asymmetric. -/
theorem charListLt_asymm : ∀ x y : List Char, charListLt x y = true → charListLt y x = false
  | [], [], h => by simp [charListLt] at h
  | [], b :: bs, _ => rfl
  | a :: as, [], h => by simp [charListLt] at h
  | a :: as, b :: bs, h => by
      simp only [charListLt] at h ⊢
      by_cases h1 : a < b
      · rw [if_neg (asymm h1), if_pos h1]
      · rw [if_neg h1] at h
        by_cases h2 : b < a
        · rw [if_pos h2] at h
          exact absurd h (by simp)
        · rw [if_neg h2] at h
          rw [if_neg h2, if_neg h1]
          exact charListLt_asymm as bs h

/-- Code-point order is trichotomous. -/
theorem charListLt_tri : ∀ x y : List Char,
    charListLt x y = true ∨ x = y ∨ charListLt y x = true
  | [], [] => Or.inr (Or.inl rfl)
  | [], _ :: _ => Or.inl rfl
  | _ :: _, [] => Or.inr (Or.inr rfl)
  | a :: as, b :: bs => by
      rcases lt_trichotomy a b with h | h | h
      · exact Or.inl (by simp [charListLt, h])
      · subst h
        rcases charListLt_tri as bs with h' | h' | h'
        · exact Or.inl (by simp [charListLt, if_neg (lt_irrefl a), h'])
        · exact Or.inr (Or.inl (by rw [h']))
        · exact Or.inr (Or.inr (by simp [charListLt, if_neg (lt_irrefl a), h']))
      · exact Or.inr (Or.inr (by simp [charListLt, h]))

/-- Code-point order is transitive. -/
theorem charListLt_trans : ∀ x y z : List Char,
    charListLt x y = true → charListLt y z = true → charListLt x z = true
  | [], y, [], _, h2 => by
      cases y with
      | nil => simp [charListLt] at h2
      | cons b bs => simp [charListLt] at h2
  | [], _, _ :: _, _, _ => rfl
  | a :: as, y, z, h1, h2 => by
      cases y with
      | nil => simp [charListLt] at h1
      | cons b bs =>
          cases z with
          | nil => simp [charListLt] at h2
          | cons c cs =>
              simp only [charListLt] at h1 h2 ⊢
              by_cases hab : a < b
              · by_cases hbc : b < c
                · rw [if_pos (lt_trans hab hbc)]
                · rw [if_neg hbc] at h2
                  by_cases hcb : c < b
                  · simp [if_pos hcb] at h2
                  · have hbc' : b = c := le_antisymm (le_of_not_lt hcb) (le_of_not_lt hbc)
                    subst hbc'
                    rw [if_pos hab]
              · rw [if_neg hab] at h1
                by_cases hba : b < a
                · simp [if_pos hba] at h1
                · rw [if_neg hba] at h1
                  have hab' : a = b := le_antisymm (le_of_not_lt hba) (le_of_not_lt hab)
                  subst hab'
                  by_cases hac : a < c
                  · rw [if_pos hac]
                  · rw [if_neg hac] at h2 ⊢
                    by_cases hca : c < a
                    · simp [if_pos hca] at h2
                    · rw [if_neg hca] at h2 ⊢
                      exact charListLt_trans as bs cs h1 h2

/-- The descending key relation used by the monitor's sort is total. -/
instance : IsTotal String (fun a b => strLt a b = false) where
  total a b := by
    by_cases h : strLt a b = false
    · exact Or.inl h
    · have h' : strLt a b = true := by
        cases hab : strLt a b
        · exact absurd hab h
        · rfl
      exact Or.inr (charListLt_asymm a.data b.data h')

/-- The descending key relation used by the monitor's sort is transitive. -/
instance : IsTrans String (fun a b => strLt a b = false) where
  trans a b c hab hbc := by
    by_contra hac'
    have hac : strLt a c = true := by
      cases h : strLt a c
      · exact absurd h hac'
      · rfl
    rcases charListLt_tri a.data b.data with h | h | h
    · exact absurd hab (by simp only [strLt, h]; simp)
    · have hd : a = b := by
        cases a
        cases b
        exact congrArg String.mk h
      subst hd
      exact absurd hbc (by simp only [strLt] at hac ⊢; simp [hac])
    · have := charListLt_trans b.data a.data c.data h hac
      exact absurd hbc (by simp only [strLt, this]; simp)

/- ## Run ids sort chronologically -/

/-- A fixed-width rendering always has its width. -/
theorem padDigits_length : ∀ k n, (padDigits k n).length = k
  | 0, _ => rfl
  | k + 1, n => by simp [padDigits, padDigits_length k]

/-- Digit characters compare exactly like the digits they render. -/
theorem digitChar_lt_iff (a b : Nat) (ha : a < 10) (hb : b < 10) :
    (Nat.digitChar a < Nat.digitChar b) ↔ a < b := by
  interval_cases a <;> interval_cases b <;> decide

/-- A common prefix does not affect a code-point comparison. -/
theorem charListLt_append_same : ∀ (xs as bs : List Char), charListLt as bs = true →
    charListLt (xs ++ as) (xs ++ bs) = true
  | [], _, _, h => h
  | x :: xs, as, bs, h => by
      simp only [List.cons_append, charListLt, if_neg (lt_irrefl x)]
      exact charListLt_append_same xs as bs h

/-- A strict comparison between equal-length blocks decides the comparison
of any extensions. -/
theorem charListLt_append_of_length_eq : ∀ (as bs u v : List Char), as.length = bs.length →
    charListLt as bs = true → charListLt (as ++ u) (bs ++ v) = true
  | [], [], _, _, _, h => by simp [charListLt] at h
  | [], _ :: _, _, _, hl, _ => by simp at hl
  | _ :: _, [], _, _, hl, _ => by simp at hl
  | a :: as, b :: bs, u, v, hl, h => by
      simp only [List.cons_append, charListLt] at h ⊢
      by_cases h1 : a < b
      · rw [if_pos h1]
      · rw [if_neg h1] at h ⊢
        by_cases h2 : b < a
        · simp [if_pos h2] at h
        · rw [if_neg h2] at h ⊢
          exact charListLt_append_of_length_eq as bs u v (by simpa using hl) h

/-- Fixed-width decimal renderings of bounded numbers compare like the
numbers themselves. -/
theorem padDigits_lt : ∀ k m n, m < n → n < 10 ^ k →
    charListLt (padDigits k m) (padDigits k n) = true
  | 0, m, n, hmn, hn => by exfalso; simp at hn; omega
  | k + 1, m, n, hmn, hn => by
      have hpos : 0 < 10 ^ k := pow_pos (by norm_num) k
      have hn10 : n / 10 ^ k < 10 := by
        rw [Nat.div_lt_iff_lt_mul hpos]
        calc n < 10 ^ (k + 1) := hn
          _ = 10 * 10 ^ k := by ring
      have hdm : m / 10 ^ k ≤ n / 10 ^ k := Nat.div_le_div_right (le_of_lt hmn)
      rcases lt_or_eq_of_le hdm with hlt | heq
      · simp only [padDigits, charListLt]
        rw [if_pos ((digitChar_lt_iff _ _ (lt_of_le_of_lt hdm hn10) hn10).mpr hlt)]
      · simp only [padDigits, charListLt, heq, if_neg (lt_irrefl (Nat.digitChar (n / 10 ^ k)))]
        apply padDigits_lt k
        · have em := Nat.div_add_mod m (10 ^ k)
          have en := Nat.div_add_mod n (10 ^ k)
          rw [heq] at em
          omega
        · exact Nat.mod_lt n hpos

/-- Chronologically later valid timestamps produce lexicographically larger
run-id character sequences. -/
theorem runIdChars_lt (t1 t2 : Timestamp) (hv1 : validTs t1) (hv2 : validTs t2)
    (h : tsIndex t1 < tsIndex t2) :
    charListLt (runIdChars t1) (runIdChars t2) = true := by
  obtain ⟨y1, mo1, d1, hh1, mi1, s1⟩ := t1
  obtain ⟨y2, mo2, d2, hh2, mi2, s2⟩ := t2
  simp only [validTs] at hv1 hv2
  simp only [tsIndex] at h
  simp only [runIdChars]
  apply charListLt_append_same
  rcases Nat.lt_trichotomy y1 y2 with hy | hy | hy
  · exact charListLt_append_of_length_eq _ _ _ _ (by simp [padDigits_length])
      (padDigits_lt 4 y1 y2 hy (lt_of_le_of_lt (by omega) (by norm_num : (9999:Nat) < 10 ^ 4)))
  · subst hy
    apply charListLt_append_same
    rcases Nat.lt_trichotomy mo1 mo2 with hmo | hmo | hmo
    · exact charListLt_append_of_length_eq _ _ _ _ (by simp [padDigits_length])
        (padDigits_lt 2 mo1 mo2 hmo (lt_of_le_of_lt (by omega) (by norm_num : (99:Nat) < 10 ^ 2)))
    · subst hmo
      apply charListLt_append_same
      rcases Nat.lt_trichotomy d1 d2 with hd | hd | hd
      · exact charListLt_append_of_length_eq _ _ _ _ (by simp [padDigits_length])
          (padDigits_lt 2 d1 d2 hd (lt_of_le_of_lt (by omega) (by norm_num : (99:Nat) < 10 ^ 2)))
      · subst hd
        apply charListLt_append_same
        apply charListLt_append_same
        rcases Nat.lt_trichotomy hh1 hh2 with hhh | hhh | hhh
        · exact charListLt_append_of_length_eq _ _ _ _ (by simp [padDigits_length])
            (padDigits_lt 2 hh1 hh2 hhh
              (lt_of_le_of_lt (by omega) (by norm_num : (99:Nat) < 10 ^ 2)))
        · subst hhh
          apply charListLt_append_same
          rcases Nat.lt_trichotomy mi1 mi2 with hmi | hmi | hmi
          · exact charListLt_append_of_length_eq _ _ _ _ (by simp [padDigits_length])
              (padDigits_lt 2 mi1 mi2 hmi
                (lt_of_le_of_lt (by omega) (by norm_num : (99:Nat) < 10 ^ 2)))
          · subst hmi
            apply charListLt_append_same
            exact padDigits_lt 2 s1 s2 (by omega)
              (lt_of_le_of_lt (by omega) (by norm_num : (99:Nat) < 10 ^ 2))
          · exfalso; omega
        · exfalso; omega
      · exfalso; omega
    · exfalso; omega
  · exfalso; omega

/-- On valid timestamps the clock index determines the timestamp. -/
theorem tsIndex_inj (t1 t2 : Timestamp) (hv1 : validTs t1) (hv2 : validTs t2)
    (h : tsIndex t1 = tsIndex t2) : t1 = t2 := by
  obtain ⟨y1, mo1, d1, hh1, mi1, s1⟩ := t1
  obtain ⟨y2, mo2, d2, hh2, mi2, s2⟩ := t2
  simp only [validTs] at hv1 hv2
  simp only [tsIndex] at h
  simp only [Timestamp.mk.injEq]
  omega

/-- Chronological order of valid creation timestamps coincides with the
code-point lexicographic order of the run ids generated from them. -/
theorem strLt_generate_run_id_iff (t1 t2 : Timestamp) (hv1 : validTs t1) (hv2 : validTs t2) :
    tsLt t1 t2 ↔ strLt (generate_run_id t1) (generate_run_id t2) = true := by
  constructor
  · intro h
    exact runIdChars_lt t1 t2 hv1 hv2 h
  · intro h
    rcases Nat.lt_trichotomy (tsIndex t1) (tsIndex t2) with hlt | heq | hgt
    · exact hlt
    · exfalso
      have hd : t1 = t2 := tsIndex_inj t1 t2 hv1 hv2 heq
      subst hd
      have h0 : strLt (generate_run_id t1) (generate_run_id t1) = false :=
        charListLt_irrefl (runIdChars t1)
      rw [h0] at h
      simp at h
    · exfalso
      have h1 := runIdChars_lt t2 t1 hv2 hv1 hgt
      have h2 := charListLt_asymm _ _ h1
      have h0 : strLt (generate_run_id t1) (generate_run_id t2) = false := h2
      rw [h0] at h
      simp at h

/- ## C6: history is the most recent limit units, in descending order -/

/-- C6.  The monitor's read works on the keys in descending code-point
order: run ids embed their creation timestamp and compare lexicographically
exactly as the timestamps compare chronologically (format
`run_YYYYMMDD_HHMMSS`); the selected keys are sorted descending and dominate
every unselected key, and the returned records are exactly the parses of the
selected keys in that order — so the read returns the most recent `limit`
records in descending start-time order. -/
theorem get_pipeline_history_most_recent_desc (st : FileStore) (limit : Nat)
    (t1 t2 : Timestamp) (hv1 : validTs t1) (hv2 : validTs t2) :
    (tsLt t1 t2 ↔ strLt (generate_run_id t1) (generate_run_id t2) = true) ∧
    List.Sorted (fun a b => strLt a b = false) (selectedKeys st limit) ∧
    (∀ a ∈ st.active.map Prod.fst, a ∉ selectedKeys st limit →
      ∀ b ∈ selectedKeys st limit, strLt b a = false) ∧
    (get_pipeline_history st limit).1 = (selectedKeys st limit).filterMap (parseAt st) := by
  refine ⟨strLt_generate_run_id_iff t1 t2 hv1 hv2, ?_, ?_, historyLoop_fst st _⟩
  · exact List.Pairwise.sublist (List.take_sublist limit _)
      (List.sorted_insertionSort (fun a b => strLt a b = false) (st.active.map Prod.fst))
  · intro a ha hna b hb
    have hperm := List.perm_insertionSort (fun a b => strLt a b = false)
      (st.active.map Prod.fst)
    have ha' : a ∈ sortKeysDesc (st.active.map Prod.fst) := hperm.mem_iff.mpr ha
    rw [← List.take_append_drop limit (sortKeysDesc (st.active.map Prod.fst))] at ha'
    rcases List.mem_append.mp ha' with h | h
    · exact absurd h hna
    · exact List.Sorted.rel_of_mem_take_of_mem_drop
        (List.sorted_insertionSort (fun a b => strLt a b = false) (st.active.map Prod.fst))
        hb h

/-- Witness for C6 at a concrete input. -/
theorem get_pipeline_history_most_recent_desc_witness :
    (validTs ⟨2024, 1, 1, 0, 0, 0⟩ ∧ validTs ⟨2024, 1, 1, 0, 0, 1⟩) ∧
    ((tsLt ⟨2024, 1, 1, 0, 0, 0⟩ ⟨2024, 1, 1, 0, 0, 1⟩ ↔
        strLt (generate_run_id ⟨2024, 1, 1, 0, 0, 0⟩)
          (generate_run_id ⟨2024, 1, 1, 0, 0, 1⟩) = true) ∧
      List.Sorted (fun a b => strLt a b = false) (selectedKeys scenarioStoreC10 3) ∧
      (∀ a ∈ scenarioStoreC10.active.map Prod.fst, a ∉ selectedKeys scenarioStoreC10 3 →
        ∀ b ∈ selectedKeys scenarioStoreC10 3, strLt b a = false) ∧
      (get_pipeline_history scenarioStoreC10 3).1 =
        (selectedKeys scenarioStoreC10 3).filterMap (parseAt scenarioStoreC10)) :=
  ⟨⟨by decide, by decide⟩,
    get_pipeline_history_most_recent_desc scenarioStoreC10 3 ⟨2024, 1, 1, 0, 0, 0⟩
      ⟨2024, 1, 1, 0, 0, 1⟩ (by decide) (by decide)⟩

/- ## C8: uniqueness of run ids -/

/-- C8 counterexample: two distinct orchestrator invocations (they do not
even agree on the outcome of the run) whose creation timestamps fall in the
same second receive the same run id — the second persisted record would
overwrite the first. -/
theorem run_id_collision_same_second :
    ((run_pipeline ⟨StageOutcome.ok [] 1, StageOutcome.ok [] 1, StageOutcome.ok [] 1,
        StageOutcome.ok [] 1⟩ ⟨2025, 6, 1, 12, 0, 0⟩ ⟨2025, 6, 1, 12, 5, 0⟩ ⟨[], []⟩
        true).1.run_id =
      (run_pipeline ⟨StageOutcome.err "API down" 1, StageOutcome.ok [] 1,
        StageOutcome.ok [] 1, StageOutcome.ok [] 1⟩ ⟨2025, 6, 1, 12, 0, 0⟩
        ⟨2025, 6, 1, 12, 5, 0⟩ ⟨[], []⟩ true).1.run_id) ∧
    (run_pipeline ⟨StageOutcome.ok [] 1, StageOutcome.ok [] 1, StageOutcome.ok [] 1,
        StageOutcome.ok [] 1⟩ ⟨2025, 6, 1, 12, 0, 0⟩ ⟨2025, 6, 1, 12, 5, 0⟩ ⟨[], []⟩
        true).1.status ≠
      (run_pipeline ⟨StageOutcome.err "API down" 1, StageOutcome.ok [] 1,
        StageOutcome.ok [] 1, StageOutcome.ok [] 1⟩ ⟨2025, 6, 1, 12, 0, 0⟩
        ⟨2025, 6, 1, 12, 5, 0⟩ ⟨[], []⟩ true).1.status :=
  ⟨rfl, by decide⟩

/-- C8 as amended.  Run ids are unique across invocations whose creation
timestamps differ at second resolution: on valid timestamps the run id
determines the timestamp, so two invocations receive the same run id only
when they are created within the same second. -/
theorem generate_run_id_injective_on_valid (t1 t2 : Timestamp) (hv1 : validTs t1)
    (hv2 : validTs t2) (h : generate_run_id t1 = generate_run_id t2) : t1 = t2 := by
  rcases Nat.lt_trichotomy (tsIndex t1) (tsIndex t2) with hlt | heq | hgt
  · exfalso
    have h1 := runIdChars_lt t1 t2 hv1 hv2 hlt
    have h2 : runIdChars t1 = runIdChars t2 := congrArg String.data h
    rw [h2, charListLt_irrefl] at h1
    simp at h1
  · exact tsIndex_inj t1 t2 hv1 hv2 heq
  · exfalso
    have h1 := runIdChars_lt t2 t1 hv2 hv1 hgt
    have h2 : runIdChars t1 = runIdChars t2 := congrArg String.data h
    rw [h2, charListLt_irrefl] at h1
    simp at h1

/-- Witness for the amended C8 at a concrete input. -/
theorem generate_run_id_injective_on_valid_witness :
    validTs ⟨2025, 3, 4, 5, 6, 7⟩ ∧ (⟨2025, 3, 4, 5, 6, 7⟩ : Timestamp) = ⟨2025, 3, 4, 5, 6, 7⟩ :=
  ⟨by decide,
    generate_run_id_injective_on_valid ⟨2025, 3, 4, 5, 6, 7⟩ ⟨2025, 3, 4, 5, 6, 7⟩
      (by decide) (by decide) rfl⟩

/- ## The scheduler -/

/-- Observable events of the scheduling loop: a run of the orchestrator
starting, the persistence of its record (inside `log_pipeline_end`, before
`run_pipeline` returns), the run returning, and an idle poll tick. -/
inductive SchedEvent where
  | runStart (n : Nat)
  | runPersist (n : Nat)
  | runEnd (n : Nat)
  | poll
deriving DecidableEq

/-- The cooperative polling loop of `start_interval_schedule` (and its
hourly/daily siblings): tick by tick, `due` abstracts whether
`schedule.run_pending()` finds the next fire time passed.  When it is, the
job `run_scheduled_pipeline` is invoked synchronously in the same thread:
the run starts, persists its record, and returns before the loop can reach
its next `time.sleep` tick — a slow run simply delays later ticks.  `n`
numbers the runs fired so far. -/
def schedAux : List Bool → Nat → List SchedEvent
  | [], _ => []
  | true :: rest, n =>
      SchedEvent.runStart n :: SchedEvent.runPersist n :: SchedEvent.runEnd n ::
        schedAux rest (n + 1)
  | false :: rest, n => SchedEvent.poll :: schedAux rest n

/-- The event trace of a scheduling loop execution. -/
def schedulerTrace (due : List Bool) : List SchedEvent := schedAux due 0

/-- Number of run starts in a trace fragment. -/
def countStart (l : List SchedEvent) : Nat :=
  l.countP (fun e => match e with | SchedEvent.runStart _ => true | _ => false)

/-- Number of record persists in a trace fragment. -/
def countPersist (l : List SchedEvent) : Nat :=
  l.countP (fun e => match e with | SchedEvent.runPersist _ => true | _ => false)

/-- Number of run returns in a trace fragment. -/
def countEnd (l : List SchedEvent) : Nat :=
  l.countP (fun e => match e with | SchedEvent.runEnd _ => true | _ => false)

/-- Counting invariant of the loop, generalized over the starting run
number. -/
theorem schedAux_start_counts : ∀ (due : List Bool) (n0 k m : Nat)
    (h : k < (schedAux due n0).length),
    (schedAux due n0).get ⟨k, h⟩ = SchedEvent.runStart m →
    n0 ≤ m ∧ countStart ((schedAux due n0).take k) = m - n0 ∧
      countPersist ((schedAux due n0).take k) = m - n0 ∧
      countEnd ((schedAux due n0).take k) = m - n0
  | [], _, k, _, h, _ => absurd h (by simp [schedAux])
  | true :: rest, n0, 0, m, _, hget => by
      simp only [schedAux, List.get] at hget
      obtain rfl : n0 = m := by injection hget
      simp [countStart, countPersist, countEnd]
  | true :: rest, n0, 1, m, _, hget => by
      simp [schedAux, List.get] at hget
  | true :: rest, n0, 2, m, _, hget => by
      simp [schedAux, List.get] at hget
  | true :: rest, n0, j + 3, m, h, hget => by
      simp only [schedAux, List.length_cons] at h
      have h' : j < (schedAux rest (n0 + 1)).length := by omega
      have hget' : (schedAux rest (n0 + 1)).get ⟨j, h'⟩ = SchedEvent.runStart m := by
        simpa [schedAux, List.get] using hget
      obtain ⟨hle, hs, hp, he⟩ := schedAux_start_counts rest (n0 + 1) j m h' hget'
      refine ⟨by omega, ?_, ?_, ?_⟩
      all_goals
        simp only [schedAux, List.take_succ_cons]
        simp only [countStart, countPersist, countEnd, List.countP_cons] at hs hp he ⊢
        simp
        omega
  | false :: rest, n0, 0, m, _, hget => by
      simp [schedAux, List.get] at hget
  | false :: rest, n0, j + 1, m, h, hget => by
      simp only [schedAux, List.length_cons] at h
      have h' : j < (schedAux rest n0).length := by omega
      have hget' : (schedAux rest n0).get ⟨j, h'⟩ = SchedEvent.runStart m := by
        simpa [schedAux, List.get] using hget
      obtain ⟨hle, hs, hp, he⟩ := schedAux_start_counts rest n0 j m h' hget'
      refine ⟨hle, ?_, ?_, ?_⟩
      all_goals
        simp only [schedAux, List.take_succ_cons]
        simp only [countStart, countPersist, countEnd, List.countP_cons] at hs hp he ⊢
        simp
        omega

/-- C9.  Runs of the scheduling loop never overlap: at the instant the
`m`-th run starts, exactly `m` runs have started before it and all `m` of
them have already persisted their record and returned — a poll tick never
starts a second run while one is executing, and the next run fires only
after the current run's `run()` call has returned with its record
persisted. -/
theorem scheduler_no_concurrent_runs (due : List Bool) (k m : Nat)
    (h : k < (schedulerTrace due).length)
    (hs : (schedulerTrace due).get ⟨k, h⟩ = SchedEvent.runStart m) :
    countStart ((schedulerTrace due).take k) = m ∧
    countPersist ((schedulerTrace due).take k) = m ∧
    countEnd ((schedulerTrace due).take k) = m := by
  obtain ⟨_, hs', hp', he'⟩ := schedAux_start_counts due 0 k m h hs
  simpa using ⟨hs', hp', he'⟩

/-- Witness for C9 at a concrete input: in the trace of a loop that fires,
idles one tick, then fires again, the second run starts only after one
start, one persist and one return. -/
theorem scheduler_no_concurrent_runs_witness :
    ((schedulerTrace [true, false, true])[4]? = some (SchedEvent.runStart 1)) ∧
    (countStart ((schedulerTrace [true, false, true]).take 4) = 1 ∧
      countPersist ((schedulerTrace [true, false, true]).take 4) = 1 ∧
      countEnd ((schedulerTrace [true, false, true]).take 4) = 1) :=
  ⟨by decide, scheduler_no_concurrent_runs [true, false, true] 4 1 (by decide) (by decide)⟩
